import Mathlib

/-!
Shallow embedding of the decision and position lifecycle engine of the
crypto hedge fund manager (src/services/tradingEngine.js), together with
theorems settling the frozen claims about it.

Numbers are modelled by the rationals.  JavaScript collections are
modelled explicitly: the Map of open positions becomes an association
list with insertion-order-preserving overwrite, matching Map.prototype.set,
and arrays become lists.  The external collaborators (the Gemini reasoning
call and the Bitquery price lookup) enter as explicit outcome parameters,
since the engine only branches on their results.
-/

namespace HedgeFund

/-- Models the JavaScript expression a || b for an optional number a:
a missing value and the number 0 are falsy, everything else passes through. -/
def jsOr (x : Option ℚ) (d : ℚ) : ℚ :=
  match x with
  | some v => if v = 0 then d else v
  | none => d

/-- Models the JavaScript expression a || b for an optional string a:
a missing value and the empty string are falsy. -/
def jsOrStr (x : Option String) (d : String) : String :=
  match x with
  | some v => if v = "" then d else v
  | none => d

/-- Models JavaScript truthiness of an optional string. -/
def jsTruthyStr (x : Option String) : Bool :=
  match x with
  | some v => v ≠ ""
  | none => false

/-- Structural split of a character list at a separator character.
Models String.prototype.split with a one-character separator: the empty
string splits to one empty part, and separators at the ends produce
empty parts, as in JavaScript. -/
def splitOnChar (sep : Char) : List Char → List (List Char)
  | [] => [[]]
  | c :: rest =>
    let r := splitOnChar sep rest
    if c = sep then
      [] :: r
    else
      match r with
      | [] => [[c]]
      | hd :: tl => (c :: hd) :: tl

/-- Models currencyId.split with a one-character separator string. -/
def jsSplit (s : String) (sep : Char) : List String :=
  (splitOnChar sep s.data).map String.mk

/-- Tests whether the pattern is an initial segment of the list. -/
def startsWithList (pat : List Char) : List Char → Bool
  | [] => pat.isEmpty
  | c :: cs =>
    match pat with
    | [] => true
    | p :: ps => p == c && startsWithList ps cs

/-- Tests whether the pattern occurs contiguously inside the list. -/
def containsSub (pat : List Char) : List Char → Bool
  | [] => pat.isEmpty
  | c :: cs => startsWithList pat (c :: cs) || containsSub pat cs

/-- Models String.prototype.includes. -/
def jsIncludes (s pat : String) : Bool :=
  containsSub pat.data s.data

/-- Models String.prototype.toUpperCase on the ASCII fragment used here. -/
def jsToUpper (s : String) : String :=
  String.mk (s.data.map Char.toUpper)

/-- Models String.prototype.toLowerCase on the ASCII fragment used here. -/
def jsToLower (s : String) : String :=
  String.mk (s.data.map Char.toLower)

/-- Models s.substring(0, n). -/
def jsSubstring (s : String) (n : ℕ) : String :=
  String.mk (s.data.take n)

/-- Models s.slice(-n): the last n characters, or the whole string when shorter. -/
def jsSliceLast (s : String) (n : ℕ) : String :=
  String.mk (s.data.drop (s.data.length - n))

/-- Models Number.prototype.toFixed(2); the decimal rendering of the
rounded value is abstracted to the integer count of hundredths, which is
all the claims about messages depend on. -/
def toFixed2 (q : ℚ) : String :=
  toString (round (q * 100))

/-! Association-list model of a JavaScript Map with string keys.
Map.prototype.set overwrites in place, keeping the original insertion
position; Map.prototype.delete removes the key; values iterate in
insertion order. -/

/-- Models Map.prototype.set: overwrite in place, else append. -/
def mapSet {α : Type} (m : List (String × α)) (k : String) (v : α) : List (String × α) :=
  if m.any (fun e => e.1 == k) then
    m.map (fun e => if e.1 == k then (k, v) else e)
  else
    m ++ [(k, v)]

/-- Models Map.prototype.get, returning none when the key is absent. -/
def mapGet {α : Type} (m : List (String × α)) (k : String) : Option α :=
  (m.find? (fun e => e.1 == k)).map Prod.snd

/-- Models Map.prototype.delete. -/
def mapDelete {α : Type} (m : List (String × α)) (k : String) : List (String × α) :=
  m.filter (fun e => !(e.1 == k))

/-! Data model, following the shapes produced by the Bitquery client
(src/services/bitquery.js) and consumed by the trading engine. -/

/-- OHLC block of one interval sample, as selected by the trade-metrics
GraphQL query. -/
structure OhlcData where
  Open : ℚ
  High : ℚ
  Low : ℚ
  Close : ℚ
  deriving DecidableEq

/-- Average block of one interval sample; the code guards both fields,
so they are optional here. -/
structure AverageData where
  Estimate : Option ℚ
  WeightedSimpleMoving : Option ℚ
  deriving DecidableEq

/-- Price block of one interval sample. -/
structure PriceData where
  Average : Option AverageData
  Ohlc : OhlcData
  deriving DecidableEq

/-- One interval sample of the trade metrics array. -/
structure TradeMetric where
  Price : Option PriceData
  Volume : Option ℚ
  deriving DecidableEq

/-- Volatility summary of one currency, from the volatility query. -/
structure VolatilityData where
  volatility : Option ℚ
  average : Option ℚ
  deriving DecidableEq

/-- One element of the batch handed to analyzeMultipleWithAI:
an identifier together with its market snapshot.  The callers always
supply an array for tradeMetrics (possibly empty on fetch failure). -/
structure CurrencyWithMetrics where
  currencyId : String
  volatilityData : VolatilityData
  tradeMetrics : List TradeMetric
  deriving DecidableEq

/-- Decision record as produced by the engine. -/
structure Decision where
  currencyId : String
  decision : String
  positionType : String
  confidence : ℚ
  reasoning : String
  entryPrice : ℚ
  deriving DecidableEq

/-- Risk parameters of one profile. -/
structure RiskParams where
  maxPositionSize : ℚ
  volatilityThreshold : ℚ
  stopLoss : ℚ
  takeProfit : ℚ
  deriving DecidableEq

/-- Open position record. -/
structure Position where
  id : String
  currencyId : String
  tokenAddress : String
  network : String
  type : String
  entryPrice : ℚ
  size : ℚ
  timestamp : ℕ
  stopLoss : ℚ
  takeProfit : ℚ
  confidence : ℚ
  reasoning : String
  expectedProfit : ℚ
  deriving DecidableEq

/-- Closed position record: the position spread together with the closing
price and the realized profit and loss. -/
structure ClosedPosition extends Position where
  currentPrice : ℚ
  pnl : ℚ
  deriving DecidableEq

/-- Result of parseCurrencyId. -/
structure NetworkAddress where
  network : String
  address : String
  deriving DecidableEq

/-- Result of closeAllPositions. -/
structure CloseAllResult where
  closedCount : ℕ
  totalPnL : ℚ
  positions : List ClosedPosition
  deriving DecidableEq

/-- Result of executeDecision. -/
structure ExecutionResult where
  message : String
  decision : String
  currencyId : String
  deriving DecidableEq

/-- Engine state: the fields set up by the TradingEngine constructor. -/
structure TradingEngine where
  riskProfile : String
  geminiApiKey : Option String
  positions : List (String × Position)
  capital : ℚ
  allocatedCapital : ℚ
  riskParams : RiskParams
  deriving DecidableEq

/-- Risk parameter table, from getRiskParameters: an unknown profile tag
falls back to the low profile. -/
def getRiskParameters (profile : String) : RiskParams :=
  let low : RiskParams :=
    { maxPositionSize := 0.1, volatilityThreshold := 0.02, stopLoss := 0.95, takeProfit := 1.05 }
  let high : RiskParams :=
    { maxPositionSize := 0.3, volatilityThreshold := 0.05, stopLoss := 0.90, takeProfit := 1.15 }
  if profile = "low" then low
  else if profile = "high" then high
  else low

/-- Models the TradingEngine constructor: fresh ledger with 100000 capital,
nothing allocated, no positions. -/
def TradingEngine.create (riskProfile : String) (geminiApiKey : Option String) : TradingEngine :=
  { riskProfile := riskProfile
    geminiApiKey := geminiApiKey
    positions := []
    capital := 100000
    allocatedCapital := 0
    riskParams := getRiskParameters riskProfile }

/-- Models parseCurrencyId: split on the colon; 3 parts give network and
address, 2 parts default the network to ethereum, anything else yields the
unknown network with the whole identifier as address.  Total, never fails. -/
def parseCurrencyId (currencyId : String) : NetworkAddress :=
  match jsSplit currencyId ':' with
  | [_, n, a] => { network := n, address := a }
  | [_, a] => { network := "ethereum", address := a }
  | _ => { network := "unknown", address := currencyId }

/-- Models calculateExpectedProfit; the entryPrice argument is unused in
the source as well. -/
def calculateExpectedProfit (positionSize : ℚ) (entryPrice : ℚ) (takeProfitMultiplier : ℚ) : ℚ :=
  positionSize * (takeProfitMultiplier - 1)

/-- Models fallbackDecision: the deterministic heuristic used whenever the
reasoning service is unavailable or unusable.  The volatilityData argument
is unused in the source as well. -/
def fallbackDecision (currencyId : String) (volatilityData : VolatilityData)
    (tradeMetrics : List TradeMetric) : Decision :=
  match tradeMetrics.getLast? with
  | none =>
    { currencyId := currencyId, decision := "hold", positionType := "long",
      confidence := 0.5, reasoning := "No trade metrics available", entryPrice := 0 }
  | some latestMetric =>
    match latestMetric.Price with
    | none =>
      { currencyId := currencyId, decision := "hold", positionType := "long",
        confidence := 0.5, reasoning := "Insufficient market data", entryPrice := 0 }
    | some price =>
      let ohlc := price.Ohlc
      let estimate := jsOr (price.Average.bind (fun a => a.Estimate)) ohlc.Close
      let sma := jsOr (price.Average.bind (fun a => a.WeightedSimpleMoving)) estimate
      let isPriceAboveSMA : Bool := decide (ohlc.Close > sma)
      let isBullish : Bool := decide (ohlc.Close > ohlc.Open)
      let actionType : String × String :=
        if isPriceAboveSMA && isBullish then ("open", "long")
        else if !isPriceAboveSMA && !isBullish then ("open", "short")
        else ("hold", "long")
      { currencyId := currencyId, decision := actionType.1, positionType := actionType.2,
        confidence := 0.6,
        reasoning := "Fallback: Price " ++ (if isPriceAboveSMA then "above" else "below")
          ++ " SMA with " ++ (if isBullish then "bullish" else "bearish") ++ " candle",
        entryPrice := estimate }

/-- One entry of the JSON array in the reasoning-service response, after
JSON parsing: every field may be absent, and extra fields are ignored. -/
structure ResponseItem where
  currencyId : Option String
  action : Option String
  positionType : Option String
  reasoning : Option String
  deriving DecidableEq

/-- Builds the currencyId-keyed lookup of parseMultiCurrencyResponse:
entries without a truthy currencyId are skipped, later entries overwrite
earlier ones with the same key. -/
def buildDecisionMap (jsonData : List ResponseItem) : List (String × ResponseItem) :=
  jsonData.foldl
    (fun m item =>
      match item.currencyId with
      | some cid => if cid ≠ "" then mapSet m cid item else m
      | none => m)
    []

/-- Models parseMultiCurrencyResponse.  The regular-expression extraction
of a JSON array from the response text and JSON.parse are summarized by
the parsed argument: none stands for every failure of that extraction
(no array found, malformed JSON, or a field access that throws inside the
guarded block, all of which land in the catch branch), some items for a
successfully parsed array of objects. -/
def parseMultiCurrencyResponse (parsed : Option (List ResponseItem))
    (currenciesWithMetrics : List CurrencyWithMetrics) : List Decision :=
  match parsed with
  | none =>
    currenciesWithMetrics.map
      (fun c => fallbackDecision c.currencyId c.volatilityData c.tradeMetrics)
  | some jsonData =>
    let decisionMap := buildDecisionMap jsonData
    currenciesWithMetrics.map (fun c =>
      match mapGet decisionMap c.currencyId with
      | some item =>
        let action := jsOrStr (item.action.map jsToUpper) "HOLD"
        let decision :=
          if jsIncludes action "OPEN" then "open"
          else if jsIncludes action "CLOSE" then "close"
          else "hold"
        let type :=
          if jsTruthyStr item.positionType then jsToLower (item.positionType.getD "")
          else if jsIncludes action "SHORT" then "short"
          else "long"
        let latestMetric := c.tradeMetrics.getLast?
        let entryPrice :=
          jsOr (latestMetric.bind (fun m => m.Price.bind (fun p => p.Average.bind (fun a => a.Estimate))))
            (jsOr (latestMetric.bind (fun m => m.Price.map (fun p => p.Ohlc.Close))) 0)
        { currencyId := c.currencyId, decision := decision, positionType := type,
          confidence := 0.7,
          reasoning := jsOrStr item.reasoning "Market analysis completed",
          entryPrice := entryPrice }
      | none =>
        fallbackDecision c.currencyId c.volatilityData c.tradeMetrics)

/-- Outcome of the single batched call to the reasoning collaborator, as
observed by analyzeMultipleWithAI: the fetch threw, the HTTP status was
not ok, the body carried an error object, the candidates structure was
missing, or a response text was extracted (whose JSON extraction result
is carried by the success constructor). -/
inductive GeminiOutcome where
  | fetchError
  | httpError
  | apiError
  | invalidStructure
  | success (parsed : Option (List ResponseItem))
  deriving DecidableEq

/-- Models analyzeMultipleWithAI: with a falsy API key, or under any
collaborator failure, every record degrades to the fallback heuristic;
otherwise the extracted response is reconciled against the batch. -/
def analyzeMultipleWithAI (e : TradingEngine) (currenciesWithMetrics : List CurrencyWithMetrics)
    (outcome : GeminiOutcome) : List Decision :=
  if !(jsTruthyStr e.geminiApiKey) then
    currenciesWithMetrics.map
      (fun c => fallbackDecision c.currencyId c.volatilityData c.tradeMetrics)
  else
    match outcome with
    | .fetchError | .httpError | .apiError | .invalidStructure =>
      currenciesWithMetrics.map
        (fun c => fallbackDecision c.currencyId c.volatilityData c.tradeMetrics)
    | .success parsed =>
      parseMultiCurrencyResponse parsed currenciesWithMetrics

/-- Models openPosition.  Date.now is passed in as the now argument; it
only feeds the position id and timestamp.  Returns the created position
(none under the capital guard) together with the successor state. -/
def TradingEngine.openPosition (e : TradingEngine) (aiDecision : Decision) (now : ℕ) :
    Option Position × TradingEngine :=
  if e.allocatedCapital ≥ e.capital * 0.9 then
    (none, e)
  else
    let positionSize := e.capital * e.riskParams.maxPositionSize
    let na := parseCurrencyId aiDecision.currencyId
    let position : Position :=
      { id := "pos_" ++ toString now
        currencyId := aiDecision.currencyId
        tokenAddress := na.address
        network := na.network
        type := aiDecision.positionType
        entryPrice := aiDecision.entryPrice
        size := positionSize
        timestamp := now
        stopLoss := e.riskParams.stopLoss
        takeProfit := e.riskParams.takeProfit
        confidence := aiDecision.confidence
        reasoning := aiDecision.reasoning
        expectedProfit := calculateExpectedProfit positionSize aiDecision.entryPrice e.riskParams.takeProfit }
    (some position,
      { e with
          positions := mapSet e.positions na.address position
          allocatedCapital := e.allocatedCapital + positionSize })

/-- Models closePosition: computes the realized profit and loss, removes
the position from the map and releases its size from allocated capital. -/
def TradingEngine.closePosition (e : TradingEngine) (position : Position) (currentPrice : ℚ) :
    ClosedPosition × TradingEngine :=
  let pnl :=
    if position.type = "long" then
      ((currentPrice - position.entryPrice) / position.entryPrice) * position.size
    else
      ((position.entryPrice - currentPrice) / position.entryPrice) * position.size
  ({ toPosition := position, currentPrice := currentPrice, pnl := pnl },
    { e with
        positions := mapDelete e.positions position.tokenAddress
        allocatedCapital := e.allocatedCapital - position.size })

/-- Models getOpenPositions: the values of the position map in insertion
order. -/
def TradingEngine.getOpenPositions (e : TradingEngine) : List Position :=
  e.positions.map Prod.snd

/-- Models the current-price resolution block inside the closeAllPositions
loop.  The optional client argument stands for the Bitquery collaborator;
its function models getTradeMetrics, with none standing for a lookup that
throws.  Every failure path lands on the entry price. -/
def resolveClosePrice (client : Option (String → Option (List TradeMetric)))
    (position : Position) : ℚ :=
  match client with
  | none => position.entryPrice
  | some getTradeMetrics =>
    match getTradeMetrics position.currencyId with
    | none => position.entryPrice
    | some metrics =>
      match metrics.getLast? with
      | none => position.entryPrice
      | some latestMetric =>
        jsOr (latestMetric.Price.bind (fun p => p.Average.bind (fun a => a.Estimate)))
          (jsOr (latestMetric.Price.map (fun p => p.Ohlc.Close)) position.entryPrice)

/-- Loop body of closeAllPositions: closes each captured position in turn,
accumulating the closed records and the running total profit and loss. -/
def closeAllLoop (client : Option (String → Option (List TradeMetric))) :
    List Position → TradingEngine → List ClosedPosition → ℚ →
      List ClosedPosition × ℚ × TradingEngine
  | [], e, acc, total => (acc, total, e)
  | position :: rest, e, acc, total =>
    let currentPrice := resolveClosePrice client position
    let r := e.closePosition position currentPrice
    closeAllLoop client rest r.2 (acc ++ [r.1]) (total + r.1.pnl)

/-- Models closeAllPositions: captures the open positions, closes every
one of them with a best-effort current price, and reports the count, the
aggregate profit and loss and the closed records. -/
def TradingEngine.closeAllPositions (e : TradingEngine)
    (client : Option (String → Option (List TradeMetric))) :
    CloseAllResult × TradingEngine :=
  let positions := e.getOpenPositions
  if positions.length = 0 then
    ({ closedCount := 0, totalPnL := 0, positions := [] }, e)
  else
    let r := closeAllLoop client positions e [] 0
    ({ closedCount := r.1.length, totalPnL := r.2.1, positions := r.1 }, r.2.2)

/-- Models executeDecision.  The tradingParams argument of the source is
unused there and omitted here; Date.now is passed in as now.  The message
strings keep the wording of the source with the leading pictograph
abstracted away. -/
def TradingEngine.executeDecision (e : TradingEngine) (aiDecision : Decision) (now : ℕ) :
    ExecutionResult × TradingEngine :=
  let na := parseCurrencyId aiDecision.currencyId
  let shortAddress := jsSubstring na.address 10 ++ "..." ++ jsSliceLast na.address 6
  let displayName := na.network ++ "/" ++ shortAddress
  if aiDecision.decision = "open" then
    let r := e.openPosition aiDecision now
    match r.1 with
    | some position =>
      ({ message := "\nOpening " ++ aiDecision.positionType ++ " position for " ++ displayName
            ++ " with expected profit of $" ++ toFixed2 position.expectedProfit,
         decision := aiDecision.decision, currencyId := displayName }, r.2)
    | none =>
      ({ message := "", decision := aiDecision.decision, currencyId := displayName }, r.2)
  else if aiDecision.decision = "close" then
    match mapGet e.positions na.address with
    | some position =>
      let r := e.closePosition position aiDecision.entryPrice
      let profitOrLoss := if r.1.pnl ≥ 0 then "profit" else "loss"
      let amount := toFixed2 |r.1.pnl|
      ({ message := "\nClosing " ++ aiDecision.positionType ++ " position for " ++ displayName
            ++ " for " ++ profitOrLoss ++ " of $" ++ amount,
         decision := aiDecision.decision, currencyId := displayName }, r.2)
    | none =>
      ({ message := "", decision := aiDecision.decision, currencyId := displayName }, e)
  else
    ({ message := "\nHolding position for " ++ displayName,
       decision := aiDecision.decision, currencyId := displayName }, e)

/-! Ledger traces.  A sequence of open and close calls against the
ledger, as issued by executeDecision: an open call passes a decision to
openPosition, a close call looks the address up in the position map and
closes the found position (and is a no-op when nothing is there, exactly
as in executeDecision). -/

/-- One ledger call of a trace. -/
inductive LedgerOp where
  | openDecision (aiDecision : Decision) (now : ℕ)
  | closeAddress (address : String) (currentPrice : ℚ)

/-- Applies one ledger call to the engine state. -/
def LedgerOp.apply (e : TradingEngine) : LedgerOp → TradingEngine
  | .openDecision d now => (e.openPosition d now).2
  | .closeAddress addr price =>
    match mapGet e.positions addr with
    | some position => (e.closePosition position price).2
    | none => e

/-- Runs a trace of ledger calls from a state. -/
def runOps (e : TradingEngine) (ops : List LedgerOp) : TradingEngine :=
  ops.foldl LedgerOp.apply e

/-- Sum of the sizes of the positions currently in the map. -/
def sumSizes : List (String × Position) → ℚ
  | [] => 0
  | p :: rest => p.2.size + sumSizes rest

/-- Inductive invariant of the ledger reachable from a fresh engine:
the capital is the constant starting capital, the position-size fraction
is one of the two profile values, every stored position carries the
uniform position size and is keyed by its own token address, the
allocated capital is a whole number of position sizes, it dominates the
sum of stored sizes, and it never exceeds ninety percent of capital. -/
def CapitalInv (e : TradingEngine) : Prop :=
  e.capital = 100000 ∧
  (e.riskParams.maxPositionSize = 0.1 ∨ e.riskParams.maxPositionSize = 0.3) ∧
  (∀ p ∈ e.positions, p.2.size = e.capital * e.riskParams.maxPositionSize) ∧
  (∀ p ∈ e.positions, p.2.tokenAddress = p.1) ∧
  (∃ k : ℕ, e.allocatedCapital = k * (e.capital * e.riskParams.maxPositionSize)) ∧
  sumSizes e.positions ≤ e.allocatedCapital ∧
  e.allocatedCapital ≤ 90000

/-! Concrete inputs used by witnesses and counterexamples. -/

/-- Decision opening a long position on a three-part identifier. -/
def sampleDecision : Decision :=
  { currencyId := "bid:solana:TOKA", decision := "open", positionType := "long",
    confidence := 0.7, reasoning := "r", entryPrice := 5 }

/-- Decision closing an address that has no open position. -/
def closeMissingDecision : Decision :=
  { currencyId := "bid:solana:GONE", decision := "close", positionType := "long",
    confidence := 0.7, reasoning := "r", entryPrice := 7 }

/-- Fresh low-risk engine whose allocated capital sits exactly at the guard. -/
def guardEngine : TradingEngine :=
  { TradingEngine.create "low" none with allocatedCapital := 90000 }

/-- Long position of the profit-and-loss scenario: size 30000, entry 100. -/
def scenarioPosition : Position :=
  { id := "pos_0", currencyId := "eth:SCEN", tokenAddress := "SCEN", network := "ethereum",
    type := "long", entryPrice := 100, size := 30000, timestamp := 0,
    stopLoss := 0.90, takeProfit := 1.15, confidence := 0.7, reasoning := "s",
    expectedProfit := 4500 }

/-- Sample whose close lies above both the moving average and the open. -/
def c5metric : TradeMetric :=
  { Price := some
      { Average := some { Estimate := some 1.5, WeightedSimpleMoving := some 1.5 },
        Ohlc := { Open := 1, High := 3, Low := 1, Close := 2 } },
    Volume := some 10 }

/-- Volatility payload used alongside the sample. -/
def c5vol : VolatilityData := { volatility := some 50, average := some 2 }

/-- Record whose identifier no response entry mentions. -/
def c3record : CurrencyWithMetrics :=
  { currencyId := "bid:solana:MISS", volatilityData := { volatility := none, average := none },
    tradeMetrics := [] }

/-- Engine holding a truthy reasoning-service key. -/
def c3engine : TradingEngine := TradingEngine.create "low" (some "k")

/-- Record with an empty trade-metrics array. -/
def c9record : CurrencyWithMetrics :=
  { currencyId := "bid:solana:EMPTYTOK", volatilityData := { volatility := none, average := none },
    tradeMetrics := [] }

/-- Response entry instructing an open on the record with empty metrics. -/
def c9item : ResponseItem :=
  { currencyId := some "bid:solana:EMPTYTOK", action := some "OPEN LONG",
    positionType := some "long", reasoning := some "bullish" }

/-- High-risk engine with a truthy reasoning-service key. -/
def c9engine : TradingEngine := TradingEngine.create "high" (some "key")

/-- Decision the batch parser produces for the record with empty metrics:
an open with entry price zero. -/
def c9decision : Decision :=
  { currencyId := "bid:solana:EMPTYTOK", decision := "open", positionType := "long",
    confidence := 0.7, reasoning := "bullish", entryPrice := 0 }

/-- First open position of the liquidation witness. -/
def c7posA : Position :=
  { id := "pos_1", currencyId := "bid:solana:AAA", tokenAddress := "AAA", network := "solana",
    type := "long", entryPrice := 10, size := 10000, timestamp := 1,
    stopLoss := 0.95, takeProfit := 1.05, confidence := 0.6, reasoning := "a",
    expectedProfit := 500 }

/-- Second open position of the liquidation witness. -/
def c7posB : Position :=
  { id := "pos_2", currencyId := "bid:solana:BBB", tokenAddress := "BBB", network := "solana",
    type := "short", entryPrice := 20, size := 10000, timestamp := 2,
    stopLoss := 0.95, takeProfit := 1.05, confidence := 0.6, reasoning := "b",
    expectedProfit := 500 }

/-- Engine with two open positions, used by the liquidation witness. -/
def c7engine : TradingEngine :=
  { TradingEngine.create "low" none with
      positions := [("AAA", c7posA), ("BBB", c7posB)], allocatedCapital := 20000 }

/-! Theorems. -/

/-- C8: parseCurrencyId is total and, splitting the input on the colon,
maps three parts to the middle part as network and the last as address,
two parts to the ethereum network with the second part as address, and
any other shape to the unknown network with the whole input as address;
the three example identifiers parse as the specification states. -/
theorem C8_parseCurrencyId_spec :
    (∀ s a b c, jsSplit s ':' = [a, b, c] →
      parseCurrencyId s = { network := b, address := c }) ∧
    (∀ s a b, jsSplit s ':' = [a, b] →
      parseCurrencyId s = { network := "ethereum", address := b }) ∧
    (∀ s, (jsSplit s ':').length ≠ 3 → (jsSplit s ':').length ≠ 2 →
      parseCurrencyId s = { network := "unknown", address := s }) ∧
    parseCurrencyId "bid:solana:ADDR123" = { network := "solana", address := "ADDR123" } ∧
    parseCurrencyId "eth:ADDR456" = { network := "ethereum", address := "ADDR456" } ∧
    parseCurrencyId "garbage" = { network := "unknown", address := "garbage" } := by
  refine ⟨?_, ?_, ?_, by decide, by decide, by decide⟩
  · intro s a b c h
    unfold parseCurrencyId
    rw [h]
  · intro s a b h
    unfold parseCurrencyId
    rw [h]
  · intro s h3 h2
    unfold parseCurrencyId
    split
    · rename_i heq
      exact absurd (by rw [heq]; rfl) h3
    · rename_i heq
      exact absurd (by rw [heq]; rfl) h2
    · rfl

/-- Witness for C8 at the first example identifier. -/
theorem C8_witness :
    jsSplit "bid:solana:ADDR123" ':' = ["bid", "solana", "ADDR123"] ∧
    parseCurrencyId "bid:solana:ADDR123" = { network := "solana", address := "ADDR123" } :=
  ⟨by decide, C8_parseCurrencyId_spec.1 "bid:solana:ADDR123" "bid" "solana" "ADDR123" (by decide)⟩

/-- C4: whenever the allocated capital has reached ninety percent of the
total capital, openPosition declines with none and leaves the whole
engine state, in particular the position map, the allocated capital and
the total capital, unchanged. -/
theorem C4_capital_guard (e : TradingEngine) (aiDecision : Decision) (now : ℕ)
    (h : e.allocatedCapital ≥ e.capital * 0.9) :
    e.openPosition aiDecision now = (none, e) := by
  unfold TradingEngine.openPosition
  rw [if_pos h]

/-- Witness for C4: an engine allocated exactly at the guard declines. -/
theorem C4_witness :
    guardEngine.allocatedCapital ≥ guardEngine.capital * 0.9 ∧
    guardEngine.openPosition sampleDecision 0 = (none, guardEngine) := by
  have hg : guardEngine.allocatedCapital ≥ guardEngine.capital * 0.9 := by
    norm_num [guardEngine, TradingEngine.create]
  exact ⟨hg, C4_capital_guard guardEngine sampleDecision 0 hg⟩

/-- C6: closePosition realizes profit and loss as price movement relative
to the entry price scaled by the position size, in the long direction for
long positions and the short direction otherwise; the concrete scenario
closing a long of size 30000 entered at 100 against a price of 115 yields
4500. -/
theorem C6_pnl_formula (e : TradingEngine) (position : Position) (currentPrice : ℚ)
    (h : position.entryPrice ≠ 0) :
    (position.type = "long" →
      (e.closePosition position currentPrice).1.pnl
        = (currentPrice - position.entryPrice) / position.entryPrice * position.size) ∧
    (position.type ≠ "long" →
      (e.closePosition position currentPrice).1.pnl
        = (position.entryPrice - currentPrice) / position.entryPrice * position.size) ∧
    ((TradingEngine.create "low" none).closePosition scenarioPosition 115).1.pnl = 4500 := by
  refine ⟨?_, ?_, ?_⟩
  · intro ht
    simp [TradingEngine.closePosition, ht]
  · intro ht
    simp [TradingEngine.closePosition, ht]
  · norm_num [TradingEngine.closePosition, scenarioPosition]

/-- Witness for C6: the scenario position realizes 4500. -/
theorem C6_witness :
    scenarioPosition.entryPrice ≠ 0 ∧
    ((TradingEngine.create "low" none).closePosition scenarioPosition 115).1.pnl = 4500 := by
  have h : scenarioPosition.entryPrice ≠ 0 := by norm_num [scenarioPosition]
  have hf :=
    (C6_pnl_formula (TradingEngine.create "low" none) scenarioPosition 115 h).1
      (by norm_num [scenarioPosition])
  refine ⟨h, ?_⟩
  rw [hf]
  norm_num [scenarioPosition]

/-- C10: a close decision whose parsed address holds no open position is
a silent no-op: executeDecision is total, returns an empty message, and
returns the engine state unchanged (so the position map, the allocated
capital and the total capital are untouched). -/
theorem C10_close_without_position (e : TradingEngine) (aiDecision : Decision) (now : ℕ)
    (hd : aiDecision.decision = "close")
    (hp : mapGet e.positions (parseCurrencyId aiDecision.currencyId).address = none) :
    (e.executeDecision aiDecision now).1.message = "" ∧
    (e.executeDecision aiDecision now).2 = e := by
  unfold TradingEngine.executeDecision
  rw [hd]
  simp [hp]

/-- Witness for C10: closing a missing address on a fresh engine. -/
theorem C10_witness :
    closeMissingDecision.decision = "close" ∧
    ((TradingEngine.create "low" none).executeDecision closeMissingDecision 0).1.message = "" ∧
    ((TradingEngine.create "low" none).executeDecision closeMissingDecision 0).2
      = TradingEngine.create "low" none := by
  have h := C10_close_without_position (TradingEngine.create "low" none) closeMissingDecision 0
    rfl (by simp [TradingEngine.create, mapGet])
  exact ⟨rfl, h.1, h.2⟩

/-- C5: on a record whose latest sample carries a Price block, the
fallback heuristic compares the close against the moving average (the
weighted moving average, falling back to the estimate and then to the
close, with the falsy-zero defaulting of the source) and against the
open: strictly above both gives an open long at confidence 0.6, at or
below both gives an open short at confidence 0.6, and the mixed case
holds at confidence 0.6; a record without samples holds at confidence
0.5. -/
theorem C5_fallback_heuristic (currencyId : String) (volatilityData : VolatilityData)
    (tradeMetrics : List TradeMetric) (latestMetric : TradeMetric) (price : PriceData)
    (estimate sma : ℚ)
    (hlast : tradeMetrics.getLast? = some latestMetric)
    (hprice : latestMetric.Price = some price)
    (hest : estimate = jsOr (price.Average.bind (fun a => a.Estimate)) price.Ohlc.Close)
    (hsma : sma = jsOr (price.Average.bind (fun a => a.WeightedSimpleMoving)) estimate) :
    (price.Ohlc.Close > sma ∧ price.Ohlc.Close > price.Ohlc.Open →
      (fallbackDecision currencyId volatilityData tradeMetrics).decision = "open" ∧
      (fallbackDecision currencyId volatilityData tradeMetrics).positionType = "long" ∧
      (fallbackDecision currencyId volatilityData tradeMetrics).confidence = 0.6) ∧
    (price.Ohlc.Close ≤ sma ∧ price.Ohlc.Close ≤ price.Ohlc.Open →
      (fallbackDecision currencyId volatilityData tradeMetrics).decision = "open" ∧
      (fallbackDecision currencyId volatilityData tradeMetrics).positionType = "short" ∧
      (fallbackDecision currencyId volatilityData tradeMetrics).confidence = 0.6) ∧
    (¬ (price.Ohlc.Close > sma ∧ price.Ohlc.Close > price.Ohlc.Open) →
     ¬ (price.Ohlc.Close ≤ sma ∧ price.Ohlc.Close ≤ price.Ohlc.Open) →
      (fallbackDecision currencyId volatilityData tradeMetrics).decision = "hold" ∧
      (fallbackDecision currencyId volatilityData tradeMetrics).confidence = 0.6) ∧
    (∀ cid vol, (fallbackDecision cid vol []).decision = "hold" ∧
      (fallbackDecision cid vol []).confidence = 0.5) := by
  have hunfold : fallbackDecision currencyId volatilityData tradeMetrics =
      { currencyId := currencyId,
        decision :=
          (if decide (price.Ohlc.Close > sma) && decide (price.Ohlc.Close > price.Ohlc.Open)
            then (("open" : String), ("long" : String))
            else if !(decide (price.Ohlc.Close > sma))
                && !(decide (price.Ohlc.Close > price.Ohlc.Open))
            then ("open", "short")
            else ("hold", "long")).1,
        positionType :=
          (if decide (price.Ohlc.Close > sma) && decide (price.Ohlc.Close > price.Ohlc.Open)
            then (("open" : String), ("long" : String))
            else if !(decide (price.Ohlc.Close > sma))
                && !(decide (price.Ohlc.Close > price.Ohlc.Open))
            then ("open", "short")
            else ("hold", "long")).2,
        confidence := 0.6,
        reasoning := "Fallback: Price "
          ++ (if decide (price.Ohlc.Close > sma) then "above" else "below")
          ++ " SMA with "
          ++ (if decide (price.Ohlc.Close > price.Ohlc.Open) then "bullish" else "bearish")
          ++ " candle",
        entryPrice := estimate } := by
    subst hest
    subst hsma
    unfold fallbackDecision
    rw [hlast]
    dsimp only
    rw [hprice]
  refine ⟨?_, ?_, ?_, ?_⟩
  · rintro ⟨h1, h2⟩
    rw [hunfold]
    refine ⟨?_, ?_, rfl⟩ <;> simp [h1, h2]
  · rintro ⟨h1, h2⟩
    rw [hunfold]
    refine ⟨?_, ?_, rfl⟩ <;> simp [not_lt.mpr h1, not_lt.mpr h2]
  · intro h1 h2
    rw [hunfold]
    rcases lt_or_le sma price.Ohlc.Close with ha | ha
    · have hb : ¬ price.Ohlc.Close > price.Ohlc.Open := fun hb => h1 ⟨ha, hb⟩
      refine ⟨?_, rfl⟩
      simp [ha, hb]
    · have hb : ¬ price.Ohlc.Close ≤ price.Ohlc.Open := fun hb => h2 ⟨ha, hb⟩
      refine ⟨?_, rfl⟩
      simp [not_lt.mpr ha, not_le.mp hb]
  · intro cid vol
    exact ⟨rfl, rfl⟩

/-- Witness for C5: the concrete bullish sample yields an open long at
confidence 0.6. -/
theorem C5_witness :
    ([c5metric].getLast? = some c5metric) ∧
    (fallbackDecision "bid:solana:AAA" c5vol [c5metric]).decision = "open" ∧
    (fallbackDecision "bid:solana:AAA" c5vol [c5metric]).positionType = "long" ∧
    (fallbackDecision "bid:solana:AAA" c5vol [c5metric]).confidence = 0.6 := by
  have hp : c5metric.Price = some
      { Average := some { Estimate := some 1.5, WeightedSimpleMoving := some 1.5 },
        Ohlc := { Open := 1, High := 3, Low := 1, Close := 2 } } := rfl
  have h := C5_fallback_heuristic "bid:solana:AAA" c5vol [c5metric] c5metric
    { Average := some { Estimate := some 1.5, WeightedSimpleMoving := some 1.5 },
      Ohlc := { Open := 1, High := 3, Low := 1, Close := 2 } }
    (jsOr (some 1.5) 2) (jsOr (some 1.5) (jsOr (some 1.5) 2)) rfl hp rfl rfl
  refine ⟨rfl, h.1 ⟨?_, ?_⟩⟩
  · show (2 : ℚ) > jsOr (some 1.5) (jsOr (some 1.5) 2)
    norm_num [jsOr]
  · norm_num

/-- The fallback heuristic echoes the identifier it was called with. -/
theorem fallbackDecision_currencyId (cid : String) (vol : VolatilityData)
    (m : List TradeMetric) : (fallbackDecision cid vol m).currencyId = cid := by
  unfold fallbackDecision
  split
  · rfl
  · split <;> rfl

/-- Mapping the fallback heuristic over a batch preserves the identifier
column. -/
theorem fallback_map_currencyId (recs : List CurrencyWithMetrics) :
    (recs.map (fun c => fallbackDecision c.currencyId c.volatilityData c.tradeMetrics)).map
        Decision.currencyId
      = recs.map CurrencyWithMetrics.currencyId := by
  rw [List.map_map]
  congr 1
  funext c
  simp only [Function.comp]
  exact fallbackDecision_currencyId c.currencyId c.volatilityData c.tradeMetrics

/-- The response reconciliation preserves the identifier column. -/
theorem parseMulti_map_currencyId (parsed : Option (List ResponseItem))
    (recs : List CurrencyWithMetrics) :
    (parseMultiCurrencyResponse parsed recs).map Decision.currencyId
      = recs.map CurrencyWithMetrics.currencyId := by
  unfold parseMultiCurrencyResponse
  cases parsed with
  | none => exact fallback_map_currencyId recs
  | some items =>
    rw [List.map_map]
    congr 1
    funext c
    simp only [Function.comp]
    split
    · rfl
    · exact fallbackDecision_currencyId c.currencyId c.volatilityData c.tradeMetrics

/-- The batch resolver preserves the identifier column for every outcome. -/
theorem analyze_map_currencyId (e : TradingEngine) (recs : List CurrencyWithMetrics)
    (outcome : GeminiOutcome) :
    (analyzeMultipleWithAI e recs outcome).map Decision.currencyId
      = recs.map CurrencyWithMetrics.currencyId := by
  unfold analyzeMultipleWithAI
  split
  · exact fallback_map_currencyId recs
  · cases outcome with
    | fetchError => exact fallback_map_currencyId recs
    | httpError => exact fallback_map_currencyId recs
    | apiError => exact fallback_map_currencyId recs
    | invalidStructure => exact fallback_map_currencyId recs
    | success parsed => exact parseMulti_map_currencyId parsed recs

/-- The batch resolver returns one decision per input record. -/
theorem analyze_length (e : TradingEngine) (recs : List CurrencyWithMetrics)
    (outcome : GeminiOutcome) :
    (analyzeMultipleWithAI e recs outcome).length = recs.length := by
  have h := congrArg List.length (analyze_map_currencyId e recs outcome)
  simpa using h

/-- C2: for every batch and every collaborator outcome, the resolver
returns exactly as many decisions as input records and the decision at
every index carries the identifier of the input record at that index
(stated as equality of the mapped identifier columns, which forces both
the length and the pointwise correspondence); the empty batch yields the
empty output. -/
theorem C2_order_correspondence (e : TradingEngine) (recs : List CurrencyWithMetrics)
    (outcome : GeminiOutcome) :
    (analyzeMultipleWithAI e recs outcome).map Decision.currencyId
      = recs.map CurrencyWithMetrics.currencyId ∧
    (analyzeMultipleWithAI e recs outcome).length = recs.length ∧
    (analyzeMultipleWithAI e ([] : List CurrencyWithMetrics) outcome).length = 0 :=
  ⟨analyze_map_currencyId e recs outcome, analyze_length e recs outcome,
    analyze_length e [] outcome⟩

/-- C3: the batch resolver absorbs every collaborator failure: with a
missing API key, a transport error, an HTTP error status, an API-reported
error, a missing response structure, or a response text without a
parseable JSON array, the whole batch degrades to the per-record fallback
heuristic; with a parsed response that omits the identifier of an input
record, that record individually receives its fallback decision; and the
caller always receives one decision per input.  Totality of the embedded
resolver reflects that no exception escapes its boundary. -/
theorem C3_failure_fallback (e : TradingEngine) (recs : List CurrencyWithMetrics) :
    (e.geminiApiKey = none → ∀ outcome, analyzeMultipleWithAI e recs outcome
      = recs.map (fun c => fallbackDecision c.currencyId c.volatilityData c.tradeMetrics)) ∧
    (analyzeMultipleWithAI e recs .fetchError
      = recs.map (fun c => fallbackDecision c.currencyId c.volatilityData c.tradeMetrics)) ∧
    (analyzeMultipleWithAI e recs .httpError
      = recs.map (fun c => fallbackDecision c.currencyId c.volatilityData c.tradeMetrics)) ∧
    (analyzeMultipleWithAI e recs .apiError
      = recs.map (fun c => fallbackDecision c.currencyId c.volatilityData c.tradeMetrics)) ∧
    (analyzeMultipleWithAI e recs .invalidStructure
      = recs.map (fun c => fallbackDecision c.currencyId c.volatilityData c.tradeMetrics)) ∧
    (analyzeMultipleWithAI e recs (.success none)
      = recs.map (fun c => fallbackDecision c.currencyId c.volatilityData c.tradeMetrics)) ∧
    (∀ (items : List ResponseItem) (i : ℕ) (c : CurrencyWithMetrics), recs[i]? = some c →
      mapGet (buildDecisionMap items) c.currencyId = none →
      (analyzeMultipleWithAI e recs (.success (some items)))[i]?
        = some (fallbackDecision c.currencyId c.volatilityData c.tradeMetrics)) ∧
    (∀ outcome, (analyzeMultipleWithAI e recs outcome).length = recs.length) := by
  refine ⟨?_, ?_, ?_, ?_, ?_, ?_, ?_, fun outcome => analyze_length e recs outcome⟩
  · intro h outcome
    unfold analyzeMultipleWithAI
    rw [h]
    rfl
  · unfold analyzeMultipleWithAI
    split <;> rfl
  · unfold analyzeMultipleWithAI
    split <;> rfl
  · unfold analyzeMultipleWithAI
    split <;> rfl
  · unfold analyzeMultipleWithAI
    split <;> rfl
  · unfold analyzeMultipleWithAI parseMultiCurrencyResponse
    split <;> rfl
  · intro items i c hc hnone
    unfold analyzeMultipleWithAI
    split
    · rw [List.getElem?_map, hc]
      rfl
    · unfold parseMultiCurrencyResponse
      rw [List.getElem?_map, hc]
      simp [hnone]

/-- Witness for C3 at a one-record batch whose identifier the parsed
response omits. -/
theorem C3_witness :
    ([c3record])[0]? = some c3record ∧
    mapGet (buildDecisionMap []) c3record.currencyId = none ∧
    (analyzeMultipleWithAI c3engine [c3record] (.success (some [])))[0]?
      = some (fallbackDecision c3record.currencyId c3record.volatilityData
          c3record.tradeMetrics) := by
  have h := (C3_failure_fallback c3engine [c3record]).2.2.2.2.2.2.1 [] 0 c3record rfl rfl
  exact ⟨rfl, rfl, h⟩

/-- C9 counterexample: the batch parser, on a record whose trade metrics
are empty but whose identifier the response instructs to open, emits an
open decision with entry price zero, and openPosition on a fresh
high-risk engine accepts it and stores a position whose entry price is
zero, refuting the strict positivity of stored entry prices. -/
theorem C9_counterexample :
    analyzeMultipleWithAI c9engine [c9record] (.success (some [c9item])) = [c9decision] ∧
    (c9engine.openPosition c9decision 0).1.map Position.entryPrice = some 0 ∧
    ¬ (∀ pos : Position, (c9engine.openPosition c9decision 0).1 = some pos →
        0 < pos.entryPrice) := by
  have h2 : (c9engine.openPosition c9decision 0).1.map Position.entryPrice = some 0 := by
    have hguard : ¬ c9engine.allocatedCapital ≥ c9engine.capital * 0.9 := by
      norm_num [c9engine, TradingEngine.create]
    unfold TradingEngine.openPosition
    rw [if_neg hguard]
    rfl
  refine ⟨rfl, h2, ?_⟩
  intro hall
  rcases Option.map_eq_some'.mp h2 with ⟨pos, hpos, hentry⟩
  have hlt := hall pos hpos
  rw [hentry] at hlt
  exact lt_irrefl 0 hlt

/-- C9 amended: every position stored by openPosition carries exactly the
entry price of the accepted decision; strict positivity does not hold in
general, since parser decisions for records with empty metrics (or whose
latest sample lacks both an estimate and a close) carry entry price zero. -/
theorem C9_entryPrice_passthrough (e : TradingEngine) (aiDecision : Decision) (now : ℕ)
    (pos : Position) (h : (e.openPosition aiDecision now).1 = some pos) :
    pos.entryPrice = aiDecision.entryPrice := by
  unfold TradingEngine.openPosition at h
  by_cases hg : e.allocatedCapital ≥ e.capital * 0.9
  · rw [if_pos hg] at h
    cases h
  · rw [if_neg hg] at h
    cases h
    rfl

/-- Witness for the amended C9: the stored entry price equals the
decision entry price on a concrete accepted open. -/
theorem C9_entryPrice_passthrough_witness :
    (c9engine.openPosition c9decision 0).1.map Position.entryPrice
      = some c9decision.entryPrice := by
  rcases hopt : (c9engine.openPosition c9decision 0).1 with _ | pos
  · exfalso
    have hguard : ¬ c9engine.allocatedCapital ≥ c9engine.capital * 0.9 := by
      norm_num [c9engine, TradingEngine.create]
    unfold TradingEngine.openPosition at hopt
    rw [if_neg hguard] at hopt
    cases hopt
  · rw [Option.map_some']
    rw [C9_entryPrice_passthrough c9engine c9decision 0 pos hopt]

/-- Without a client the close price is the entry price. -/
theorem resolveClosePrice_none (p : Position) :
    resolveClosePrice none p = p.entryPrice := rfl

/-- A lookup that throws lands on the entry price. -/
theorem resolveClosePrice_lookupFail (f : String → Option (List TradeMetric)) (p : Position)
    (h : f p.currencyId = none) : resolveClosePrice (some f) p = p.entryPrice := by
  unfold resolveClosePrice
  dsimp only
  rw [h]

/-- The liquidation loop only ever deletes from the position map: its
final map is the fold of deletions of the token addresses of the visited
positions. -/
theorem closeAllLoop_positions (client : Option (String → Option (List TradeMetric)))
    (vs : List Position) :
    ∀ (e : TradingEngine) (acc : List ClosedPosition) (total : ℚ),
      (closeAllLoop client vs e acc total).2.2.positions
        = vs.foldl (fun m p => mapDelete m p.tokenAddress) e.positions := by
  induction vs with
  | nil =>
    intro e acc total
    rfl
  | cons p rest ih =>
    intro e acc total
    simp only [closeAllLoop, List.foldl_cons]
    rw [ih]
    rfl

/-- The liquidation loop closes exactly the visited positions, in order,
accumulating their realized profit and loss, and prices each of them by
the best-effort resolution. -/
theorem closeAllLoop_results (client : Option (String → Option (List TradeMetric)))
    (vs : List Position) :
    ∀ (e : TradingEngine) (acc : List ClosedPosition) (total : ℚ),
      ∃ news : List ClosedPosition,
        (closeAllLoop client vs e acc total).1 = acc ++ news ∧
        (closeAllLoop client vs e acc total).2.1
          = total + (news.map ClosedPosition.pnl).sum ∧
        news.map ClosedPosition.toPosition = vs ∧
        ∀ cp ∈ news, cp.currentPrice = resolveClosePrice client cp.toPosition := by
  induction vs with
  | nil =>
    intro e acc total
    exact ⟨[], by simp [closeAllLoop], by simp [closeAllLoop], rfl, by simp⟩
  | cons p rest ih =>
    intro e acc total
    obtain ⟨news, h1, h2, h3, h4⟩ :=
      ih (e.closePosition p (resolveClosePrice client p)).2
        (acc ++ [(e.closePosition p (resolveClosePrice client p)).1])
        (total + (e.closePosition p (resolveClosePrice client p)).1.pnl)
    refine ⟨(e.closePosition p (resolveClosePrice client p)).1 :: news, ?_, ?_, ?_, ?_⟩
    · simp only [closeAllLoop]
      rw [h1]
      simp
    · simp only [closeAllLoop]
      rw [h2]
      simp only [List.map_cons, List.sum_cons]
      ring
    · simp only [List.map_cons, h3]
      rfl
    · intro cp hcp
      rcases List.mem_cons.mp hcp with heq | hmem
      · subst heq
        rfl
      · exact h4 cp hmem

/-- Folding deletions of a covering key set over an association list
empties it. -/
theorem foldl_mapDelete_nil {α : Type} (ks : List String) :
    ∀ (m : List (String × α)), (∀ p ∈ m, p.1 ∈ ks) →
      ks.foldl (fun acc k => mapDelete acc k) m = [] := by
  induction ks with
  | nil =>
    intro m h
    cases m with
    | nil => rfl
    | cons p rest => exact absurd (h p (List.mem_cons_self p rest)) (List.not_mem_nil p.1)
  | cons k ks ih =>
    intro m h
    simp only [List.foldl_cons]
    apply ih
    intro p hp
    have hpm : p ∈ m := List.mem_of_mem_filter hp
    have hne : ¬ (p.1 = k) := by
      have hf := List.of_mem_filter hp
      simpa using hf
    rcases List.mem_cons.mp (h p hpm) with heq | hmem
    · exact absurd heq hne
    · exact hmem

/-- C7: closeAllPositions empties the position map, reports a closed
count equal to the number of positions open before the call, reports a
total equal to the sum of the individual realized profit and loss
values, and prices a position by its own entry price whenever the client
is absent or its lookup fails; the embedded liquidation is total, so it
never raises.  The hypothesis is the ledger well-formedness every
engine-constructed state satisfies: each stored position is keyed by its
own token address. -/
theorem C7_liquidation (e : TradingEngine)
    (client : Option (String → Option (List TradeMetric)))
    (hwf : ∀ p ∈ e.positions, p.2.tokenAddress = p.1) :
    (e.closeAllPositions client).2.positions = [] ∧
    (e.closeAllPositions client).1.closedCount = e.positions.length ∧
    (e.closeAllPositions client).1.totalPnL
      = ((e.closeAllPositions client).1.positions.map ClosedPosition.pnl).sum ∧
    (client = none → ∀ cp ∈ (e.closeAllPositions client).1.positions,
      cp.currentPrice = cp.toPosition.entryPrice) ∧
    (∀ f, client = some f → ∀ cp ∈ (e.closeAllPositions client).1.positions,
      f cp.toPosition.currencyId = none → cp.currentPrice = cp.toPosition.entryPrice) := by
  obtain ⟨news, h1, h2, h3, h4⟩ := closeAllLoop_results client e.getOpenPositions e [] 0
  have hempty : (closeAllLoop client e.getOpenPositions e [] 0).2.2.positions = [] := by
    rw [closeAllLoop_positions client e.getOpenPositions e [] 0]
    rw [← List.foldl_map Position.tokenAddress (fun m k => mapDelete m k) e.getOpenPositions
      e.positions]
    apply foldl_mapDelete_nil
    intro p hp
    rw [← hwf p hp]
    exact List.mem_map_of_mem Position.tokenAddress
      (List.mem_map_of_mem Prod.snd hp)
  by_cases h0 : e.getOpenPositions.length = 0
  · have hm : e.positions = [] := by
      have := h0
      unfold TradingEngine.getOpenPositions at this
      simpa using this
    unfold TradingEngine.closeAllPositions
    rw [if_pos h0]
    simp [hm]
  · unfold TradingEngine.closeAllPositions
    rw [if_neg h0]
    dsimp only
    have hnews : news.length = e.positions.length := by
      have := congrArg List.length h3
      simpa [TradingEngine.getOpenPositions] using this
    rw [List.nil_append] at h1
    refine ⟨hempty, ?_, ?_, ?_, ?_⟩
    · simp only [h1]
      exact hnews
    · simp only [h1, h2]
      ring
    · intro hclient cp hcp
      rw [h1] at hcp
      rw [h4 cp hcp, hclient]
      rfl
    · intro f hclient cp hcp hfail
      rw [h1] at hcp
      rw [h4 cp hcp, hclient]
      exact resolveClosePrice_lookupFail f cp.toPosition hfail

/-- Witness for C7: liquidating a two-position engine without a client
empties the map, closes two positions and keeps the entry prices. -/
theorem C7_witness :
    (∀ p ∈ c7engine.positions, p.2.tokenAddress = p.1) ∧
    (c7engine.closeAllPositions none).2.positions = [] ∧
    (c7engine.closeAllPositions none).1.closedCount = 2 ∧
    (c7engine.closeAllPositions none).1.totalPnL
      = (((c7engine.closeAllPositions none).1.positions).map ClosedPosition.pnl).sum := by
  have hwf : ∀ p ∈ c7engine.positions, p.2.tokenAddress = p.1 := by
    intro p hp
    have hp2 : p = ("AAA", c7posA) ∨ p = ("BBB", c7posB) := by
      simpa [c7engine, TradingEngine.create] using hp
    rcases hp2 with h | h <;> subst h <;> rfl
  have h := C7_liquidation c7engine none hwf
  exact ⟨hwf, h.1, h.2.1, h.2.2.1⟩

/-- Sum of sizes distributes over append. -/
theorem sumSizes_append (m l : List (String × Position)) :
    sumSizes (m ++ l) = sumSizes m + sumSizes l := by
  induction m with
  | nil => simp [sumSizes]
  | cons p rest ih =>
    have h1 : sumSizes ((p :: rest) ++ l) = p.2.size + sumSizes (rest ++ l) := rfl
    have h2 : sumSizes (p :: rest) = p.2.size + sumSizes rest := rfl
    rw [h1, h2, ih]
    ring

/-- Overwriting an entry of a size-uniform map with a value of the same
size keeps the sum of sizes. -/
theorem sumSizes_map_replace (k : String) (v : Position) (sz : ℚ) (hv : v.size = sz) :
    ∀ (m : List (String × Position)), (∀ p ∈ m, p.2.size = sz) →
      sumSizes (m.map (fun e => if e.1 == k then (k, v) else e)) = sumSizes m := by
  intro m
  induction m with
  | nil => intro _; rfl
  | cons p rest ih =>
    intro hm
    have hp : p.2.size = sz := hm p (List.mem_cons_self p rest)
    have hrest : ∀ q ∈ rest, q.2.size = sz :=
      fun q hq => hm q (List.mem_cons_of_mem p hq)
    simp only [List.map_cons, sumSizes, ih hrest]
    by_cases hk : p.1 == k
    · rw [if_pos hk]
      dsimp only
      rw [hv, hp]
    · rw [if_neg hk]

/-- A set on a size-uniform map grows the sum of sizes by at most one
position size. -/
theorem sumSizes_mapSet_le (m : List (String × Position)) (k : String) (v : Position) (sz : ℚ)
    (hm : ∀ p ∈ m, p.2.size = sz) (hv : v.size = sz) (hnn : 0 ≤ sz) :
    sumSizes (mapSet m k v) ≤ sumSizes m + sz := by
  unfold mapSet
  split
  · rw [sumSizes_map_replace k v sz hv m hm]
    linarith
  · rw [sumSizes_append]
    simp only [sumSizes]
    rw [hv]
    linarith

/-- Every element of a set came from the overwrite pair or the old map. -/
theorem mem_mapSet {m : List (String × Position)} {k : String} {v : Position}
    {p : String × Position} (hp : p ∈ mapSet m k v) : p = (k, v) ∨ p ∈ m := by
  unfold mapSet at hp
  split at hp
  · obtain ⟨q, hq, hfq⟩ := List.mem_map.mp hp
    by_cases hk : q.1 == k
    · rw [if_pos hk] at hfq
      exact Or.inl hfq.symm
    · rw [if_neg hk] at hfq
      exact Or.inr (hfq ▸ hq)
  · rcases List.mem_append.mp hp with hmem | hmem
    · exact Or.inr hmem
    · exact Or.inl (List.mem_singleton.mp hmem)

/-- Filtering never grows the sum of sizes when sizes are nonnegative. -/
theorem sumSizes_filter_le (f : String × Position → Bool) :
    ∀ (m : List (String × Position)), (∀ p ∈ m, 0 ≤ p.2.size) →
      sumSizes (m.filter f) ≤ sumSizes m := by
  intro m
  induction m with
  | nil => intro _; simp [sumSizes]
  | cons p rest ih =>
    intro hm
    have hp : 0 ≤ p.2.size := hm p (List.mem_cons_self p rest)
    have hrest : ∀ q ∈ rest, 0 ≤ q.2.size :=
      fun q hq => hm q (List.mem_cons_of_mem p hq)
    by_cases hf : f p
    · rw [List.filter_cons_of_pos hf]
      simp only [sumSizes]
      linarith [ih hrest]
    · rw [List.filter_cons_of_neg hf]
      simp only [sumSizes]
      linarith [ih hrest]

/-- The sum of nonnegative sizes is nonnegative. -/
theorem sumSizes_nonneg :
    ∀ (m : List (String × Position)), (∀ p ∈ m, 0 ≤ p.2.size) → 0 ≤ sumSizes m := by
  intro m
  induction m with
  | nil => intro _; simp [sumSizes]
  | cons p rest ih =>
    intro hm
    have hp := hm p (List.mem_cons_self p rest)
    have hr := ih (fun q hq => hm q (List.mem_cons_of_mem p hq))
    simp only [sumSizes]
    linarith

/-- A member of a nonnegative-size map contributes at most the whole sum. -/
theorem size_le_sumSizes {entry : String × Position} :
    ∀ (m : List (String × Position)), entry ∈ m → (∀ p ∈ m, 0 ≤ p.2.size) →
      entry.2.size ≤ sumSizes m := by
  intro m
  induction m with
  | nil => intro h _; cases h
  | cons p rest ih =>
    intro hmem hm
    have hrest : ∀ q ∈ rest, 0 ≤ q.2.size :=
      fun q hq => hm q (List.mem_cons_of_mem p hq)
    rcases List.mem_cons.mp hmem with heq | hmem2
    · subst heq
      simp only [sumSizes]
      have h0 : 0 ≤ sumSizes rest := sumSizes_nonneg rest hrest
      linarith
    · have := ih hmem2 hrest
      have hp : 0 ≤ p.2.size := hm p (List.mem_cons_self p rest)
      simp only [sumSizes]
      linarith

/-- Deleting a present key of a size-uniform map frees at least one
position size from the sum. -/
theorem sumSizes_delete_le (addr : String) (sz : ℚ) (hnn : 0 ≤ sz)
    {entry : String × Position} :
    ∀ (m : List (String × Position)), (∀ p ∈ m, p.2.size = sz) →
      entry ∈ m → entry.1 = addr →
      sumSizes (mapDelete m addr) + sz ≤ sumSizes m := by
  intro m
  induction m with
  | nil => intro _ h _; cases h
  | cons p rest ih =>
    intro hm hmem hkeq
    have hp : p.2.size = sz := hm p (List.mem_cons_self p rest)
    have hrest : ∀ q ∈ rest, q.2.size = sz :=
      fun q hq => hm q (List.mem_cons_of_mem p hq)
    have hrestnn : ∀ q ∈ rest, 0 ≤ q.2.size := fun q hq => (hrest q hq) ▸ hnn
    by_cases hk : p.1 == addr
    · have hdel : mapDelete (p :: rest) addr = mapDelete rest addr := by
        unfold mapDelete
        rw [List.filter_cons_of_neg (by simpa using hk)]
      rw [hdel]
      have hfil : sumSizes (mapDelete rest addr) ≤ sumSizes rest :=
        sumSizes_filter_le _ rest hrestnn
      simp only [sumSizes]
      rw [hp]
      linarith
    · have hdel : mapDelete (p :: rest) addr = p :: mapDelete rest addr := by
        unfold mapDelete
        rw [List.filter_cons_of_pos (by simpa using hk)]
      have hmem2 : entry ∈ rest := by
        rcases List.mem_cons.mp hmem with heq | h2
        · exfalso
          apply hk
          rw [heq] at hkeq
          simp [hkeq]
        · exact h2
      have := ih hrest hmem2 hkeq
      rw [hdel]
      simp only [sumSizes]
      linarith

/-- A successful get exhibits a matching entry of the map. -/
theorem mapGet_some_mem {α : Type} {m : List (String × α)} {k : String} {v : α}
    (h : mapGet m k = some v) : ∃ entry ∈ m, entry.1 = k ∧ entry.2 = v := by
  unfold mapGet at h
  obtain ⟨entry, hfind, hsnd⟩ := Option.map_eq_some'.mp h
  refine ⟨entry, List.mem_of_find?_eq_some hfind, ?_, hsnd⟩
  have := List.find?_some hfind
  simpa using this

/-- One more accepted position size stays within the ninety percent
buffer, for either profile size. -/
theorem step_bound (k : ℕ) (sz : ℚ) (hsz : sz = 10000 ∨ sz = 30000)
    (h : (k : ℚ) * sz < 90000) : ((k : ℚ) + 1) * sz ≤ 90000 := by
  rcases hsz with rfl | rfl
  · have hk : (k : ℚ) < 9 := by linarith
    have hk2 : k < 9 := by exact_mod_cast hk
    have hk3 : (k : ℚ) + 1 ≤ 9 := by exact_mod_cast hk2
    linarith
  · have hk : (k : ℚ) < 3 := by linarith
    have hk2 : k < 3 := by exact_mod_cast hk
    have hk3 : (k : ℚ) + 1 ≤ 3 := by exact_mod_cast hk2
    linarith

/-- The fresh engine satisfies the capital invariant for any profile tag
and key. -/
theorem capitalInv_create (profile : String) (key : Option String) :
    CapitalInv (TradingEngine.create profile key) := by
  refine ⟨rfl, ?_, ?_, ?_, ⟨0, by norm_num [TradingEngine.create]⟩, ?_, ?_⟩
  · unfold TradingEngine.create getRiskParameters
    dsimp only
    split_ifs
    · left; rfl
    · right; rfl
    · left; rfl
  · intro p hp
    cases hp
  · intro p hp
    cases hp
  · norm_num [TradingEngine.create, sumSizes]
  · norm_num [TradingEngine.create]

/-- Opening preserves the capital invariant. -/
theorem capitalInv_open (e : TradingEngine) (d : Decision) (now : ℕ) (hInv : CapitalInv e) :
    CapitalInv (e.openPosition d now).2 := by
  obtain ⟨hcap, hmax, hsize, hkey, ⟨k, halloc⟩, hsum, hbound⟩ := hInv
  have hsz : e.capital * e.riskParams.maxPositionSize = 10000 ∨
      e.capital * e.riskParams.maxPositionSize = 30000 := by
    rcases hmax with h | h
    · left; rw [hcap, h]; norm_num
    · right; rw [hcap, h]; norm_num
  have hsznn : 0 ≤ e.capital * e.riskParams.maxPositionSize := by
    rcases hsz with h | h <;> rw [h] <;> norm_num
  unfold TradingEngine.openPosition
  by_cases hg : e.allocatedCapital ≥ e.capital * 0.9
  · rw [if_pos hg]
    exact ⟨hcap, hmax, hsize, hkey, ⟨k, halloc⟩, hsum, hbound⟩
  · rw [if_neg hg]
    dsimp only
    refine ⟨hcap, hmax, ?_, ?_, ⟨k + 1, ?_⟩, ?_, ?_⟩
    · intro p hp
      rcases mem_mapSet hp with hpe | hpe
      · rw [hpe]
      · exact hsize p hpe
    · intro p hp
      rcases mem_mapSet hp with hpe | hpe
      · rw [hpe]
      · exact hkey p hpe
    · dsimp only
      rw [halloc]
      push_cast
      ring
    · dsimp only
      have hstep2 : sumSizes e.positions + e.capital * e.riskParams.maxPositionSize ≤
          e.allocatedCapital + e.capital * e.riskParams.maxPositionSize := by linarith
      exact le_trans (sumSizes_mapSet_le _ _ _ _ hsize rfl hsznn) hstep2
    · dsimp only
      have hlt : (k : ℚ) * (e.capital * e.riskParams.maxPositionSize) < 90000 := by
        rw [← halloc]
        have hg2 : e.allocatedCapital < e.capital * 0.9 := lt_of_not_ge hg
        rw [hcap] at hg2
        norm_num at hg2
        exact hg2
      have hstep := step_bound k _ hsz hlt
      have hre : ((k : ℚ) + 1) * (e.capital * e.riskParams.maxPositionSize)
          = (k : ℚ) * (e.capital * e.riskParams.maxPositionSize)
            + e.capital * e.riskParams.maxPositionSize := by ring
      rw [halloc]
      linarith

/-- A ledger close call preserves the capital invariant. -/
theorem capitalInv_close (e : TradingEngine) (addr : String) (price : ℚ)
    (hInv : CapitalInv e) :
    CapitalInv (LedgerOp.apply e (.closeAddress addr price)) := by
  obtain ⟨hcap, hmax, hsize, hkey, ⟨k, halloc⟩, hsum, hbound⟩ := hInv
  have hsz : e.capital * e.riskParams.maxPositionSize = 10000 ∨
      e.capital * e.riskParams.maxPositionSize = 30000 := by
    rcases hmax with h | h
    · left; rw [hcap, h]; norm_num
    · right; rw [hcap, h]; norm_num
  have hszpos : 0 < e.capital * e.riskParams.maxPositionSize := by
    rcases hsz with h | h <;> rw [h] <;> norm_num
  have hsznn : 0 ≤ e.capital * e.riskParams.maxPositionSize := le_of_lt hszpos
  have hnnsize : ∀ p ∈ e.positions, 0 ≤ p.2.size :=
    fun p hp => (hsize p hp) ▸ hsznn
  unfold LedgerOp.apply
  dsimp only
  rcases hget : mapGet e.positions addr with _ | pos
  · simp only [hget]
    exact ⟨hcap, hmax, hsize, hkey, ⟨k, halloc⟩, hsum, hbound⟩
  · simp only [hget]
    obtain ⟨entry, hmem, hkeyeq, hval⟩ := mapGet_some_mem hget
    have hps : pos.size = e.capital * e.riskParams.maxPositionSize := by
      rw [← hval]
      exact hsize entry hmem
    have hpa : pos.tokenAddress = addr := by
      rw [← hval, hkey entry hmem, hkeyeq]
    have hles : e.capital * e.riskParams.maxPositionSize ≤ sumSizes e.positions := by
      have h1 := size_le_sumSizes e.positions hmem hnnsize
      rw [hsize entry hmem] at h1
      exact h1
    have hk1 : 1 ≤ k := by
      by_contra hklt
      have hk0 : k = 0 := by omega
      rw [hk0] at halloc
      norm_num at halloc
      rw [halloc] at hsum
      linarith
    unfold TradingEngine.closePosition
    dsimp only
    refine ⟨hcap, hmax, ?_, ?_, ⟨k - 1, ?_⟩, ?_, ?_⟩
    · intro p hp
      exact hsize p (List.mem_of_mem_filter hp)
    · intro p hp
      exact hkey p (List.mem_of_mem_filter hp)
    · dsimp only
      have hcast : ((k - 1 : ℕ) : ℚ) = (k : ℚ) - 1 := by
        push_cast [hk1]
        ring
      rw [hps, halloc, hcast]
      ring
    · dsimp only
      rw [hpa, hps]
      have hdel := sumSizes_delete_le addr (e.capital * e.riskParams.maxPositionSize)
        hsznn e.positions hsize hmem hkeyeq
      linarith
    · dsimp only
      rw [hps]
      linarith

/-- Every ledger call preserves the capital invariant. -/
theorem capitalInv_apply (e : TradingEngine) (op : LedgerOp) (hInv : CapitalInv e) :
    CapitalInv (LedgerOp.apply e op) := by
  cases op with
  | openDecision d now => exact capitalInv_open e d now hInv
  | closeAddress addr price => exact capitalInv_close e addr price hInv

/-- Every trace of ledger calls preserves the capital invariant. -/
theorem capitalInv_run (e : TradingEngine) (ops : List LedgerOp) (hInv : CapitalInv e) :
    CapitalInv (runOps e ops) := by
  induction ops generalizing e with
  | nil => exact hInv
  | cons op rest ih =>
    exact ih (LedgerOp.apply e op) (capitalInv_apply e op hInv)

/-- C1 amended: for any sequence of ledger open and close calls from a
fresh engine, the allocated capital stays within zero and the total
capital, and it dominates the sum of the sizes of the currently open
positions.  Equality with that sum does not hold in general: an open that
overwrites an existing position at the same address adds the new size
without releasing the overwritten one (see the counterexample). -/
theorem C1_capital_bounds (profile : String) (key : Option String) (ops : List LedgerOp) :
    0 ≤ (runOps (TradingEngine.create profile key) ops).allocatedCapital ∧
    (runOps (TradingEngine.create profile key) ops).allocatedCapital
      ≤ (runOps (TradingEngine.create profile key) ops).capital ∧
    sumSizes (runOps (TradingEngine.create profile key) ops).positions
      ≤ (runOps (TradingEngine.create profile key) ops).allocatedCapital := by
  obtain ⟨hcap, hmax, hsize, hkey, ⟨k, halloc⟩, hsum, hbound⟩ :=
    capitalInv_run (TradingEngine.create profile key) ops (capitalInv_create profile key)
  refine ⟨?_, ?_, hsum⟩
  · rw [halloc]
    have hsznn : 0 ≤ (runOps (TradingEngine.create profile key) ops).capital
        * (runOps (TradingEngine.create profile key) ops).riskParams.maxPositionSize := by
      rcases hmax with h | h <;> rw [hcap, h] <;> norm_num
    positivity
  · rw [hcap]
    linarith

/-- C1 counterexample: opening the same address twice on a fresh
high-risk engine leaves 60000 allocated while only one position of size
30000 is open, so the allocated capital differs from the sum of open
position sizes. -/
theorem C1_counterexample :
    (runOps (TradingEngine.create "high" none)
        [.openDecision sampleDecision 0, .openDecision sampleDecision 1]).allocatedCapital
      = 60000 ∧
    sumSizes (runOps (TradingEngine.create "high" none)
        [.openDecision sampleDecision 0, .openDecision sampleDecision 1]).positions
      = 30000 ∧
    sumSizes (runOps (TradingEngine.create "high" none)
        [.openDecision sampleDecision 0, .openDecision sampleDecision 1]).positions
      ≠ (runOps (TradingEngine.create "high" none)
          [.openDecision sampleDecision 0, .openDecision sampleDecision 1]).allocatedCapital := by
  have hparse : parseCurrencyId "bid:solana:TOKA"
      = { network := "solana", address := "TOKA" } := by decide
  have hrp : getRiskParameters "high"
      = { maxPositionSize := 0.3, volatilityThreshold := 0.05,
          stopLoss := 0.90, takeProfit := 1.15 } := rfl
  refine ⟨?_, ?_, ?_⟩ <;>
    norm_num [runOps, LedgerOp.apply, TradingEngine.create, TradingEngine.openPosition,
      mapSet, sumSizes, calculateExpectedProfit, sampleDecision, hparse, hrp]

end HedgeFund
